import Mathlib

/-!
Verification of `scripts/evaluate.py` (evaluation pipeline of the
azure-search-openai-demo fork): target invoker, config materializer,
metric aggregation and the run orchestrator.

Strings manipulated by the config materializer are modelled as `List Char`
(Python `str` is a sequence of characters); JSON response bodies as an
inductive `Json` type; the effectful pipeline steps (`requests.post`,
file reads, the opaque `evaluate` grading call, artifact writes) as
explicit environments plus an event trace.
-/

namespace Evaluate

/-- JSON values, modelling the Python objects returned by `r.json()` /
`json.loads`. -/
inductive Json where
  | null : Json
  | bool : Bool → Json
  | num : Int → Json
  | str : String → Json
  | arr : List Json → Json
  | obj : List (String × Json) → Json

/-- Key lookup in a JSON object, modelling Python `d[key]` (first match;
parsed JSON has unique keys). -/
def lookupKV : List (String × Json) → String → Option Json
  | [], _ => none
  | (k, v) :: rest, key => if k = key then some v else lookupKV rest key

/-- `d[key]` where `d` must be a dict; anything else raises (modelled as
`none`, caught by the surrounding `except` in the source). -/
def Json.getField : Json → String → Option Json
  | .obj kvs, key => lookupKV kvs key
  | _, _ => none

/-- `xs[i]` where `xs` must be an array (out-of-range or wrong shape
raises, modelled as `none`). -/
def Json.getIdx : Json → Nat → Option Json
  | .arr xs, i => xs.get? i
  | _, _ => none

mutual
/-- Rendering of a JSON value into the error message, standing for
Python's `str(response_dict)`. -/
def renderJson : Json → String
  | .null => "None"
  | .bool true => "True"
  | .bool false => "False"
  | .num n => toString n
  | .str s => "\"" ++ s ++ "\""
  | .arr xs => "[" ++ renderJsonList xs ++ "]"
  | .obj kvs => "\x7b" ++ renderJsonKVs kvs ++ "\x7d"
def renderJsonList : List Json → String
  | [] => ""
  | [j] => renderJson j
  | j :: rest => renderJson j ++ ", " ++ renderJsonList rest
def renderJsonKVs : List (String × Json) → String
  | [] => ""
  | [(k, v)] => "\"" ++ k ++ "\": " ++ renderJson v
  | (k, v) :: rest => "\"" ++ k ++ "\": " ++ renderJson v ++ ", " ++ renderJsonKVs rest
end

/-- All elements must be strings (otherwise Python `str.join` raises
TypeError). -/
def asStrings : List Json → Option (List String)
  | [] => some []
  | .str s :: rest => (asStrings rest).map (s :: ·)
  | _ :: _ => none

/-- Python `sep.join(x)` over the possible iterable shapes of a JSON value:
a list must contain only strings; iterating a string yields its characters;
iterating a dict yields its keys; anything else raises TypeError (`none`). -/
def pyJoin (sep : String) : Json → Option String
  | .arr xs => (asStrings xs).map (String.intercalate sep)
  | .str s => some (String.intercalate sep (s.toList.map String.singleton))
  | .obj kvs => some (String.intercalate sep (kvs.map Prod.fst))
  | _ => none

/-- Lines 26-28 of `evaluate.py`: extract
`response_dict["choices"][0]["message"]["content"]` and
`response_dict["choices"][0]["context"]["data_points"]["text"]`, joining
the latter with blank-line separators.  `none` models any exception
raised by the indexing or the join. -/
def extractAnswerContext (j : Json) : Option (Json × String) := do
  let choices ← j.getField "choices"
  let c0 ← choices.getIdx 0
  let msg ← c0.getField "message"
  let answer ← msg.getField "content"
  let ctx ← c0.getField "context"
  let dp ← ctx.getField "data_points"
  let txt ← dp.getField "text"
  let context ← pyJoin "\n\n" txt
  return (answer, context)

/-- The `response_obj` dict built by `send_question_to_target` (and also
the degraded error-shaped result). -/
structure TargetResponse where
  question : String
  answer : Json
  context : String

/-- The ValueError message raised on schema mismatch (lines 30-35). -/
def schemaErrorMessage (j : Json) : String :=
  "Response does not adhere to the expected schema. " ++
  "Either adjust the app response or adjust send_question_to_target() in evaluate.py " ++
  "to match the actual schema.\nResponse: " ++ renderJson j

/-- The request body built at lines 17-21. -/
def requestBody (question : String) (parameters : Json) : Json :=
  .obj [("messages", .arr [.obj [("content", .str question), ("role", .str "user")]]),
        ("stream", .bool false),
        ("context", parameters)]

/-- `send_question_to_target` (lines 15-46).  The HTTP layer is abstracted:
`response` is the outcome of `requests.post` followed by `r.json()` —
`.error e` when either raises (connection failure, timeout, malformed JSON
body), `.ok j` the parsed body.  The result is `.error e` exactly when the
Python function raises. -/
def send_question_to_target (question : String) (response : Except String Json)
    (raise_error : Bool) : Except String TargetResponse :=
  let attempt : Except String TargetResponse :=
    match response with
    | .error e => .error e
    | .ok j =>
      match extractAnswerContext j with
      | some (answer, context) => .ok ⟨question, answer, context⟩
      | none => .error (schemaErrorMessage j)
  match attempt with
  | .ok r => .ok r
  | .error e =>
    if raise_error then .error e
    else .ok ⟨question, .str e, e⟩

/-- The canonical response shape expected by the invoker, with answer `A`
and context snippets `ss`. -/
def mkTargetJson (A : String) (ss : List String) : Json :=
  .obj [("choices", .arr [.obj
    [("message", .obj [("content", .str A)]),
     ("context", .obj [("data_points", .obj [("text", .arr (ss.map Json.str))])])]])]

/-! ## Config materializer (`process_config`, lines 170-185)

Python strings are modelled as `List Char`; `str.replace` and the `in`
substring test are given explicit recursive definitions below. -/

/-- The literal `"<TIMESTAMP>"`. -/
def tsMarker : List Char := ['<', 'T', 'I', 'M', 'E', 'S', 'T', 'A', 'M', 'P', '>']

/-- The literal `"<READFILE>"`. -/
def rfMarker : List Char := ['<', 'R', 'E', 'A', 'D', 'F', 'I', 'L', 'E', '>']

/-- If `pat` is a prefix of `s`, return the remainder of `s` after it. -/
def dropPre? : List Char → List Char → Option (List Char)
  | [], s => some s
  | _ :: _, [] => none
  | p :: ps, c :: cs => if p = c then dropPre? ps cs else none

/-- Find the leftmost occurrence of `pat` in `s`: returns the part before
the occurrence and the part after it. -/
def splitFirst (pat : List Char) : List Char → Option (List Char × List Char)
  | [] => none
  | c :: cs =>
    match dropPre? pat (c :: cs) with
    | some rest => some ([], rest)
    | none =>
      match splitFirst pat cs with
      | some (pre, post) => some (c :: pre, post)
      | none => none

/-- Python `pat in s` (substring test), for the nonempty markers used by
`process_config`. -/
def containsMarker (pat s : List Char) : Bool := (splitFirst pat s).isSome

theorem dropPre?_eq_append {pat : List Char} :
    ∀ {s r : List Char}, dropPre? pat s = some r → s = pat ++ r := by
  induction pat with
  | nil => intro s r h; simpa [dropPre?] using h
  | cons p ps ih =>
    intro s r h
    cases s with
    | nil => simp [dropPre?] at h
    | cons c cs =>
      simp only [dropPre?] at h
      by_cases hpc : p = c
      · subst hpc
        simp only [if_pos rfl] at h
        simpa using ih h
      · simp [hpc] at h

theorem dropPre?_append (pat r : List Char) : dropPre? pat (pat ++ r) = some r := by
  induction pat with
  | nil => simp [dropPre?]
  | cons p ps ih => simpa [dropPre?] using ih

theorem splitFirst_eq_append {pat : List Char} :
    ∀ {s pre post : List Char}, splitFirst pat s = some (pre, post) →
      s = pre ++ pat ++ post := by
  intro s
  induction s with
  | nil => intro pre post h; simp [splitFirst] at h
  | cons c cs ih =>
    intro pre post h
    simp only [splitFirst] at h
    cases h1 : dropPre? pat (c :: cs) with
    | some rest =>
      rw [h1] at h
      simp only [Option.some.injEq, Prod.mk.injEq] at h
      obtain ⟨h2, h3⟩ := h
      subst h2; subst h3
      simpa using dropPre?_eq_append h1
    | none =>
      rw [h1] at h
      cases h2 : splitFirst pat cs with
      | some pp =>
        obtain ⟨pre1, post1⟩ := pp
        rw [h2] at h
        simp only [Option.some.injEq, Prod.mk.injEq] at h
        obtain ⟨h3, h4⟩ := h
        subst h3; subst h4
        have := ih h2
        simp [this]
      | none => rw [h2] at h; cases h

/-- Fuel-driven worker for `replaceList`; each replacement step consumes
at least one character of `s`, so `s.length` fuel always suffices. -/
def replaceFuel (pat repl : List Char) : Nat → List Char → List Char
  | 0, s => s
  | fuel + 1, s =>
    match splitFirst pat s with
    | none => s
    | some (pre, post) => pre ++ repl ++ replaceFuel pat repl fuel post

/-- Python `s.replace(pat, repl)`: replace every (leftmost,
non-overlapping) occurrence of `pat` in `s` by `repl`.  (`process_config`
only calls it with the nonempty markers; for an empty `pat` the fuel just
runs out and `s` comes back unchanged.) -/
def replaceList (pat repl : List Char) (s : List Char) : List Char :=
  replaceFuel pat repl s.length s

theorem replaceFuel_nil (pat repl : List Char) : ∀ f, replaceFuel pat repl f [] = [] := by
  intro f
  cases f with
  | zero => rfl
  | succ f => rfl

theorem splitFirst_post_lt {pat : List Char} (hpat : pat ≠ [])
    {s pre post : List Char} (h : splitFirst pat s = some (pre, post)) :
    post.length < s.length := by
  have hs := splitFirst_eq_append h
  have hlen : s.length = pre.length + pat.length + post.length := by
    rw [hs]; simp; omega
  have hp : 0 < pat.length := List.length_pos.mpr hpat
  omega

theorem replaceFuel_congr {pat : List Char} (repl : List Char) (hpat : pat ≠ []) :
    ∀ (f1 : Nat) (s : List Char) (f2 : Nat), s.length ≤ f1 → s.length ≤ f2 →
      replaceFuel pat repl f1 s = replaceFuel pat repl f2 s := by
  intro f1
  induction f1 with
  | zero =>
    intro s f2 h1 _
    have hs : s = [] := List.length_eq_zero.mp (Nat.le_zero.mp h1)
    subst hs
    rw [replaceFuel_nil, replaceFuel_nil]
  | succ f ih =>
    intro s f2 h1 h2
    cases f2 with
    | zero =>
      have hs : s = [] := List.length_eq_zero.mp (Nat.le_zero.mp h2)
      subst hs
      rw [replaceFuel_nil, replaceFuel_nil]
    | succ g =>
      show replaceFuel pat repl (f + 1) s = replaceFuel pat repl (g + 1) s
      simp only [replaceFuel]
      cases hsf : splitFirst pat s with
      | none => rfl
      | some pp =>
        obtain ⟨pre, post⟩ := pp
        have hlt := splitFirst_post_lt hpat hsf
        dsimp only
        rw [ih post g (by omega) (by omega)]

theorem replaceList_none {pat repl s : List Char} (hpat : ¬ pat = [])
    (h : splitFirst pat s = none) : replaceList pat repl s = s := by
  unfold replaceList
  cases hl : s.length with
  | zero =>
    have hs : s = [] := List.length_eq_zero.mp hl
    subst hs
    rfl
  | succ k =>
    simp only [replaceFuel, h]

theorem replaceList_some {pat repl s pre post : List Char} (hpat : ¬ pat = [])
    (h : splitFirst pat s = some (pre, post)) :
    replaceList pat repl s = pre ++ repl ++ replaceList pat repl post := by
  unfold replaceList
  have hlt := splitFirst_post_lt hpat h
  cases hl : s.length with
  | zero => omega
  | succ k =>
    simp only [replaceFuel, h]
    rw [replaceFuel_congr repl hpat k post post.length (by omega) le_rfl]

/-- Fuel-driven decimal rendering worker. -/
def natCharsFuel : Nat → Nat → List Char
  | 0, _ => []
  | fuel + 1, n =>
    if n < 10 then [Nat.digitChar n]
    else natCharsFuel fuel (n / 10) ++ [Nat.digitChar (n % 10)]

/-- Decimal rendering of a natural number, modelling Python
`str(int(time.time()))` (the timestamp is nonnegative). -/
def natChars (n : Nat) : List Char := natCharsFuel (n + 1) n

/-- File system and clock environment for `process_config`:
`now = int(time.time())` and `file path = UTF-8 contents of path`
(`none` when `open` raises FileNotFoundError). -/
structure FsEnv where
  now : Nat
  file : List Char → Option (List Char)

/-- The uncaught exception raised by `open` on a missing `<READFILE>`
path. -/
def fileNotFoundError (path : List Char) : String :=
  "FileNotFoundError: " ++ String.mk path

/-- Lines 175-185 of `evaluate.py`, the marker substitution applied to one
string value:
if it contains `<TIMESTAMP>`, replace that marker with the decimal
timestamp; elif it contains `<READFILE>`, read the file whose path is the
value with the marker removed and replace the whole value by its contents;
otherwise leave the value unchanged. -/
def processString (fs : FsEnv) (s : List Char) : Except String (List Char) :=
  if containsMarker tsMarker s then
    .ok (replaceList tsMarker (natChars fs.now) s)
  else if containsMarker rfMarker s then
    match fs.file (replaceList rfMarker [] s) with
    | some contents => .ok contents
    | none => .error (fileNotFoundError (replaceList rfMarker [] s))
  else .ok s

/-- A JSON configuration value as seen by `process_config`: strings and
nested dicts are treated specially, every other value (numbers, lists,
booleans, null) is left untouched. -/
inductive ConfigValue where
  | str : List Char → ConfigValue
  | dict : List (String × ConfigValue) → ConfigValue
  | other : ConfigValue

mutual
/-- `process_config` (lines 170-185): walks a dict; non-dict arguments are
left untouched (the `isinstance(obj, dict)` guard).  In-place mutation is
modelled by returning the transformed value; an uncaught exception
(FileNotFoundError) by `.error`. -/
def process_config (fs : FsEnv) : ConfigValue → Except String ConfigValue
  | .dict kvs => (processItems fs kvs).map ConfigValue.dict
  | v => .ok v
/-- The body of the `for key in obj` loop, applied to each value in
order. -/
def processItems (fs : FsEnv) :
    List (String × ConfigValue) → Except String (List (String × ConfigValue))
  | [] => .ok []
  | (k, v) :: rest =>
    match processItem fs v, processItems fs rest with
    | .ok v1, .ok rest1 => .ok ((k, v1) :: rest1)
    | .error e, _ => .error e
    | .ok _, .error e => .error e
/-- The `if isinstance(obj[key], dict) / elif isinstance(obj[key], str)`
dispatch for a single dict value. -/
def processItem (fs : FsEnv) : ConfigValue → Except String ConfigValue
  | .dict kvs => (processItems fs kvs).map ConfigValue.dict
  | .str s => (processString fs s).map ConfigValue.str
  | .other => .ok .other
end

/-- `s` is one of the string values appearing anywhere in the (nested)
configuration value `v`. -/
inductive StrLeaf : List Char → ConfigValue → Prop where
  | here (s : List Char) : StrLeaf s (.str s)
  | dict {s : List Char} {k : String} {v : ConfigValue}
      {kvs : List (String × ConfigValue)} :
      (k, v) ∈ kvs → StrLeaf s v → StrLeaf s (.dict kvs)

mutual
/-- No string value anywhere in `v` contains both markers (the claim's
side condition on legitimate configurations). -/
def noBothMarkers : ConfigValue → Bool
  | .str s => !(containsMarker tsMarker s && containsMarker rfMarker s)
  | .dict kvs => noBothMarkersKVs kvs
  | .other => true
def noBothMarkersKVs : List (String × ConfigValue) → Bool
  | [] => true
  | (_, v) :: rest => noBothMarkers v && noBothMarkersKVs rest
end

mutual
/-- No string value anywhere in `v` contains either marker. -/
def markerFree : ConfigValue → Bool
  | .str s => !containsMarker tsMarker s && !containsMarker rfMarker s
  | .dict kvs => markerFreeKVs kvs
  | .other => true
def markerFreeKVs : List (String × ConfigValue) → Bool
  | [] => true
  | (_, v) :: rest => markerFree v && markerFreeKVs rest
end

/-! ## Dataset, aggregation and the run orchestrator
(`run_evaluation`, lines 59-167; `run_evaluate_from_config`, lines 188-216) -/

/-- One line of the NDJSON test set (`qa.jsonl` shape). -/
structure TestRecord where
  question : String
  truth : String
deriving DecidableEq

/-- Python truthiness of the optional `num_questions` argument
(`None` and `0` are falsy). -/
def pyTruthy : Option Int → Bool
  | none => false
  | some n => n != 0

/-- Python slice `xs[:n]` for an arbitrary integer bound. -/
def pySliceTo (xs : List α) (n : Int) : List α :=
  if 0 ≤ n then xs.take n.toNat else xs.take ((xs.length : Int) + n).toNat

/-- Lines 69-70: `if num_questions: testdata = testdata[:num_questions]`. -/
def applyQuestionCap (num_questions : Option Int) (testdata : List TestRecord) :
    List TestRecord :=
  if pyTruthy num_questions then pySliceTo testdata (num_questions.getD 0)
  else testdata

/-- One line of the grading artifact: the answer text plus the three
model-graded ratings consumed by the aggregation loop. -/
structure RatedRecord where
  answer : String
  gpt_coherence : ℚ
  gpt_relevance : ℚ
  gpt_groundedness : ℚ

/-- `question_with_rating[metric_name]` for the three metric names in
`gpt_metrics` (the only keys the loop reads). -/
def RatedRecord.rating (r : RatedRecord) (name : String) : ℚ :=
  if name = "gpt_coherence" then r.gpt_coherence
  else if name = "gpt_relevance" then r.gpt_relevance
  else r.gpt_groundedness

/-- Floor of a rational, kept explicit so proofs can evaluate it
(`Rat.floor_def` identifies it with `⌊q⌋`). -/
def ratFloor (q : ℚ) : Int := q.num / q.den

/-- Ceiling of a rational, via `⌈q⌉ = -⌊-q⌋`. -/
def ratCeil (q : ℚ) : Int := -ratFloor (-q)

/-- Python `int()` on a rational: truncation toward zero (`0 ≤ q` is
tested on the numerator so the kernel can evaluate it). -/
def pyInt (q : ℚ) : Int := if 0 ≤ q.num then ratFloor q else ratCeil q

/-- Lines 128-129: `def passes_threshold(rating): return int(rating) >= 4`. -/
def passes_threshold (rating : ℚ) : Bool := decide (4 ≤ pyInt rating)

/-- Rounding half to even of a rational to an integer, the behaviour of
Python's `round`: `r = q - ⌊q⌋` is compared against `1/2` through the
equivalent integer comparison of `2 * (q.num - ⌊q⌋ * q.den)` with
`q.den`. -/
def roundHalfEven (q : ℚ) : Int :=
  let f := ratFloor q
  let r := q.num - f * (q.den : Int)
  if 2 * r < (q.den : Int) then f
  else if (q.den : Int) < 2 * r then f + 1
  else if f % 2 = 0 then f else f + 1

/-- Python `round(q, 2)`. -/
def round2 (q : ℚ) : ℚ := (roundHalfEven (100 * q) : ℚ) / 100

/-- The projection of the aggregation loop (lines 131-139) onto a single
metric: running `(pass_count, pass_rate)` state, starting at record index
`ind`.  `pass_rate` is recomputed after every record as
`round(pass_count / (ind + 1), 2)`. -/
def metricLoopAux (name : String) : List RatedRecord → Nat → Nat × ℚ → Nat × ℚ
  | [], _, st => st
  | r :: rest, ind, (pc, _) =>
    let pc1 := if passes_threshold (r.rating name) then pc + 1 else pc
    metricLoopAux name rest (ind + 1) (pc1, round2 ((pc1 : ℚ) / (ind + 1)))

/-- Final `(pass_count, pass_rate)` for one metric over the whole rated
set (initial state `(0, 0)` from line 118). -/
def metricLoop (name : String) (records : List RatedRecord) : Nat × ℚ :=
  metricLoopAux name records 0 (0, 0)

/-- `re.search(r"\[[^\]]+\]", s)` helper: scan for a closing bracket. -/
def citeClose : List Char → Bool
  | [] => false
  | c :: rest => if c = ']' then true else citeClose rest

/-- After an opening bracket: at least one non-`]` character followed by a
`]`. -/
def citeAfterOpen : List Char → Bool
  | [] => false
  | c :: rest => if c = ']' then false else citeClose rest

/-- Whether `re.search(r"\[[^\]]+\]", ...)` finds a match anywhere. -/
def citeSearch : List Char → Bool
  | [] => false
  | c :: rest => (if c = '[' then citeAfterOpen rest else false) || citeSearch rest

/-- Line 134: the answer contains a bracketed citation. -/
def hasCitation (s : String) : Bool := citeSearch s.toList

/-- Running state of the answer-length / citation statistics
(lines 123-126 initial values, lines 131-134 updates). -/
structure AnswerStats where
  total_length : Nat
  max_length : Nat
  min_length : Nat
  total_with_citation : Nat

def statsLoop : List RatedRecord → AnswerStats → AnswerStats
  | [], st => st
  | r :: rest, st =>
    statsLoop rest
      { total_length := st.total_length + r.answer.length,
        max_length := max st.max_length r.answer.length,
        min_length := min st.min_length r.answer.length,
        total_with_citation :=
          st.total_with_citation + (if hasCitation r.answer then 1 else 0) }

def initialStats : AnswerStats := ⟨0, 0, 9999999999, 0⟩

/-- One entry of the per-metric summary (lines 115-121). -/
structure MetricResult where
  mean_rating : ℚ
  pass_count : Nat
  pass_rate : ℚ

/-- The contents of `summary.json`. -/
structure MetricSummary where
  coherence : MetricResult
  relevance : MetricResult
  groundedness : MetricResult
  answer_length_total : Nat
  answer_length_mean : ℚ
  answer_length_max : Nat
  answer_length_min : Nat
  answer_has_citation_total : Nat
  answer_has_citation_rate : ℚ

def mkMetricResult (meanSummary : String → ℚ) (name : String)
    (records : List RatedRecord) : MetricResult :=
  ⟨round2 (meanSummary name), (metricLoop name records).1, (metricLoop name records).2⟩

/-- Lines 115-150: the metric aggregation.  `meanSummary name` stands for
`results.metrics_summary["mean_" + name]` from the opaque grading call.
Python divides `total_length` (and the citation count) by
`len(questions_with_ratings)`; on an empty rated set this raises
ZeroDivisionError, modelled as `none`. -/
def computeMetrics (meanSummary : String → ℚ) (records : List RatedRecord) :
    Option MetricSummary :=
  if records.length = 0 then none
  else
    let st := statsLoop records initialStats
    some
      { coherence := mkMetricResult meanSummary "gpt_coherence" records,
        relevance := mkMetricResult meanSummary "gpt_relevance" records,
        groundedness := mkMetricResult meanSummary "gpt_groundedness" records,
        answer_length_total := st.total_length,
        answer_length_mean := round2 ((st.total_length : ℚ) / records.length),
        answer_length_max := st.max_length,
        answer_length_min := st.min_length,
        answer_has_citation_total := st.total_with_citation,
        answer_has_citation_rate :=
          round2 ((st.total_with_citation : ℚ) / records.length) }

/-- Observable side effects of one run, in execution order. -/
inductive Event where
  | readDataset : Event
  | probe : String → Event
  | grade : List TestRecord → Event
  | writeSummary : Event
  | writeParameters : Event
  | writeConfig : Event
deriving DecidableEq

/-- Line 74: the fixed health-check question. -/
def probeQuestion : String := "What information is in your knowledge base?"

/-- External inputs of `run_evaluation`: the dataset file contents, the
target's response to a POST, the rated records read back from the grading
artifact, and the metric means reported by the grading call. -/
structure EvalEnv where
  testdata : List TestRecord
  targetResponse : Except String Json
  gradedRecords : List RatedRecord
  meanSummary : String → ℚ

def zeroDivisionError : String := "ZeroDivisionError: division by zero"

/-- `run_evaluation` (lines 59-167) as a trace of events plus an outcome:
`Except.ok b` models a normal return of `b`, `.error e` an uncaught
exception.  Order of operations follows the source: the dataset file is
read (line 67) and optionally truncated (lines 69-70), then the probe
question is sent with `raise_error=True` (lines 73-85, returning `False`
on any exception), then the opaque grading call runs, the artifact is
aggregated, and `summary.json` / `evaluate_parameters.json` are
written. -/
def run_evaluation (env : EvalEnv) (num_questions : Option Int) :
    List Event × Except String Bool :=
  let testdata := applyQuestionCap num_questions env.testdata
  match send_question_to_target probeQuestion env.targetResponse true with
  | .error _ => ([.readDataset, .probe probeQuestion], .ok false)
  | .ok _ =>
    match computeMetrics env.meanSummary env.gradedRecords with
    | none =>
      ([.readDataset, .probe probeQuestion, .grade testdata], .error zeroDivisionError)
    | some _ =>
      ([.readDataset, .probe probeQuestion, .grade testdata,
        .writeSummary, .writeParameters], .ok true)

/-- `run_evaluate_from_config` (lines 188-216): materialize the config,
run the evaluation, and copy the original config file to
`results_dir/config.json` only when `run_evaluation` returned `True`. -/
def run_evaluate_from_config (fs : FsEnv) (config : ConfigValue) (env : EvalEnv)
    (num_questions : Option Int) : List Event × Except String Unit :=
  match process_config fs config with
  | .error e => ([], .error e)
  | .ok _ =>
    match run_evaluation env num_questions with
    | (events, .error e) => (events, .error e)
    | (events, .ok true) => (events ++ [.writeConfig], .ok ())
    | (events, .ok false) => (events, .ok ())

/-! ## Supporting lemmas: substring structure of `replaceList` -/

/-- An infix of an append is an infix of one side, or straddles the
boundary with a nonempty suffix of the left part and a nonempty part
reaching into the right part. -/
theorem infix_append_cases {α : Type} {q a b : List α} (h : q <:+: a ++ b) :
    q <:+: a ∨ q <:+: b ∨
      ∃ q₁ q₂, q = q₁ ++ q₂ ∧ q₁ ≠ [] ∧ q₂ ≠ [] ∧ q₁ <:+ a ∧ q₂ <+: b := by
  obtain ⟨l, r, hlr⟩ := h
  rw [List.append_assoc] at hlr
  rcases List.append_eq_append_iff.mp hlr with ⟨m, hm1, hm2⟩ | ⟨m, hm1, hm2⟩
  · rcases List.append_eq_append_iff.mp hm2 with ⟨w, hw1, hw2⟩ | ⟨w, hw1, hw2⟩
    · refine Or.inl ⟨l, w, ?_⟩
      rw [hm1, hw1, List.append_assoc]
    · by_cases hm0 : m = []
      · subst hm0
        simp only [List.nil_append] at hw1
        subst hw1
        exact Or.inr (Or.inl ⟨[], r, by simp [hw2]⟩)
      · by_cases hw0 : w = []
        · subst hw0
          rw [List.append_nil] at hw1
          subst hw1
          exact Or.inl ⟨l, [], by simp [hm1]⟩
        · exact Or.inr (Or.inr ⟨m, w, hw1, hm0, hw0, ⟨l, hm1.symm⟩, ⟨r, hw2.symm⟩⟩)
  · exact Or.inr (Or.inl ⟨m, r, by rw [hm2, List.append_assoc]⟩)

theorem dropPre?_none_not_isPre {pat s : List Char} (h : dropPre? pat s = none) :
    ¬ pat <+: s := by
  rintro ⟨t, ht⟩
  rw [← ht, dropPre?_append] at h
  cases h

theorem splitFirst_none_not_occurs {pat : List Char} (hpat : pat ≠ []) :
    ∀ {s : List Char}, splitFirst pat s = none → ¬ pat <:+: s := by
  intro s
  induction s with
  | nil => intro _ hinf; exact hpat (List.eq_nil_of_infix_nil hinf)
  | cons c cs ih =>
    intro h hinf
    simp only [splitFirst] at h
    cases h1 : dropPre? pat (c :: cs) with
    | some rest => rw [h1] at h; cases h
    | none =>
      rw [h1] at h
      cases h2 : splitFirst pat cs with
      | some pp => rw [h2] at h; cases h
      | none =>
        rcases List.infix_cons_iff.mp hinf with hp | hi
        · exact dropPre?_none_not_isPre h1 hp
        · exact ih h2 hi

theorem splitFirst_pre_not_occurs {pat : List Char} (hpat : pat ≠ []) :
    ∀ {s pre post : List Char}, splitFirst pat s = some (pre, post) →
      ¬ pat <:+: pre := by
  intro s
  induction s with
  | nil => intro pre post h; simp [splitFirst] at h
  | cons c cs ih =>
    intro pre post h
    simp only [splitFirst] at h
    cases h1 : dropPre? pat (c :: cs) with
    | some rest =>
      rw [h1] at h
      simp only [Option.some.injEq, Prod.mk.injEq] at h
      obtain ⟨h2, _⟩ := h
      subst h2
      intro hinf
      exact hpat (List.eq_nil_of_infix_nil hinf)
    | none =>
      rw [h1] at h
      cases h2 : splitFirst pat cs with
      | some pp =>
        obtain ⟨pre1, post1⟩ := pp
        rw [h2] at h
        simp only [Option.some.injEq, Prod.mk.injEq] at h
        obtain ⟨h3, _⟩ := h
        subst h3
        intro hinf
        rcases List.infix_cons_iff.mp hinf with hp | hi
        · have hcs : cs = pre1 ++ pat ++ post1 := splitFirst_eq_append h2
          have hpre : (c :: pre1) <+: (c :: cs) := by
            rw [List.cons_prefix_cons]
            refine ⟨rfl, ?_⟩
            rw [hcs, List.append_assoc]
            exact List.prefix_append _ _
          exact dropPre?_none_not_isPre h1 (hp.trans hpre)
        · exact ih h2 hi
      | none => rw [h2] at h; cases h

theorem containsMarker_iff_occurs {pat s : List Char} (hpat : pat ≠ []) :
    containsMarker pat s = true ↔ pat <:+: s := by
  unfold containsMarker
  constructor
  · intro h
    cases h2 : splitFirst pat s with
    | none => rw [h2] at h; cases h
    | some pp =>
      obtain ⟨pre, post⟩ := pp
      exact ⟨pre, post, (splitFirst_eq_append h2).symm⟩
  · intro hinf
    cases h2 : splitFirst pat s with
    | none => exact absurd hinf (splitFirst_none_not_occurs hpat h2)
    | some pp => rfl

def decimalDigits : List Char := ['0', '1', '2', '3', '4', '5', '6', '7', '8', '9']

theorem digitChar_mem_decimalDigits :
    ∀ d : Nat, d < 10 → Nat.digitChar d ∈ decimalDigits := by decide

theorem natChars_ne_nil (n : Nat) : natChars n ≠ [] := by
  unfold natChars natCharsFuel
  split <;> simp

theorem natCharsFuel_digits : ∀ (fuel n : Nat), ∀ c ∈ natCharsFuel fuel n,
    c ∈ decimalDigits := by
  intro fuel
  induction fuel with
  | zero => intro n c hc; simp [natCharsFuel] at hc
  | succ f ih =>
    intro n c hc
    simp only [natCharsFuel] at hc
    split at hc
    · next h =>
      simp only [List.mem_singleton] at hc
      subst hc
      exact digitChar_mem_decimalDigits _ h
    · next h =>
      rw [List.mem_append] at hc
      rcases hc with hc | hc
      · exact ih _ c hc
      · simp only [List.mem_singleton] at hc
        subst hc
        exact digitChar_mem_decimalDigits _ (Nat.mod_lt _ (by omega))

theorem natChars_digits (n : Nat) : ∀ c ∈ natChars n, c ∈ decimalDigits :=
  natCharsFuel_digits (n + 1) n

theorem decimalDigits_not_mem_tsMarker : ∀ c ∈ decimalDigits, c ∉ tsMarker := by decide

theorem decimalDigits_not_mem_rfMarker : ∀ c ∈ decimalDigits, c ∉ rfMarker := by decide

/-- Central lemma: `s.replace(pat, repl)` contains no occurrence of a
nonempty pattern `q` sharing no character with `repl`, provided `q` is the
replaced pattern itself or did not occur in `s` to begin with. -/
theorem replaceList_no_occurs {pat repl q : List Char} (hpat : pat ≠ [])
    (hrepl : repl ≠ []) (hq : q ≠ []) (hdisj : ∀ c ∈ repl, c ∉ q) :
    ∀ s : List Char, (q = pat ∨ ¬ q <:+: s) → ¬ q <:+: replaceList pat repl s := by
  have main : ∀ n : Nat, ∀ s : List Char, s.length ≤ n →
      (q = pat ∨ ¬ q <:+: s) → ¬ q <:+: replaceList pat repl s := by
    intro n
    induction n with
    | zero =>
      intro s hlen _
      have hs : s = [] := List.length_eq_zero.mp (Nat.le_zero.mp hlen)
      subst hs
      have h0 : splitFirst pat ([] : List Char) = none := rfl
      rw [replaceList_none hpat h0]
      intro hinf
      exact hq (List.eq_nil_of_infix_nil hinf)
    | succ n ih =>
      intro s hlen hside
      cases hsf : splitFirst pat s with
      | none =>
        rw [replaceList_none hpat hsf]
        cases hside with
        | inl hqp => subst hqp; exact splitFirst_none_not_occurs hpat hsf
        | inr hni => exact hni
      | some pp =>
        obtain ⟨pre, post⟩ := pp
        rw [replaceList_some hpat hsf]
        intro hinf
        have hs : s = pre ++ pat ++ post := splitFirst_eq_append hsf
        rw [List.append_assoc] at hinf
        rcases infix_append_cases hinf with h1 | h2 | h3
        · cases hside with
          | inl hqp => subst hqp; exact splitFirst_pre_not_occurs hpat hsf h1
          | inr hni =>
            apply hni
            refine h1.trans ?_
            rw [hs, List.append_assoc]
            exact (List.prefix_append pre (pat ++ post)).isInfix
        · rcases infix_append_cases h2 with h2a | h2b | h2c
          · obtain ⟨c, hc⟩ := List.exists_mem_of_ne_nil q hq
            exact hdisj c (h2a.subset hc) hc
          · have hpostlen : post.length ≤ n := by
              have h4 := congrArg List.length hs
              simp only [List.length_append] at h4
              have hp : 0 < pat.length := List.length_pos.mpr hpat
              omega
            have hside2 : q = pat ∨ ¬ q <:+: post := by
              cases hside with
              | inl hqp => exact Or.inl hqp
              | inr hni =>
                refine Or.inr fun hip => hni (hip.trans ?_)
                rw [hs]
                exact (List.suffix_append (pre ++ pat) post).isInfix
            exact ih post hpostlen hside2 h2b
          · obtain ⟨q₁, q₂, hq12, hq1, _, hq1s, _⟩ := h2c
            obtain ⟨c, hc⟩ := List.exists_mem_of_ne_nil q₁ hq1
            have hcq : c ∈ q := by
              rw [hq12]; exact List.mem_append.mpr (Or.inl hc)
            exact hdisj c (hq1s.subset hc) hcq
        · obtain ⟨q₁, q₂, hq12, _, hq2, _, hq2p⟩ := h3
          obtain ⟨d, ds, hd⟩ := List.exists_cons_of_ne_nil hq2
          obtain ⟨e, es, he⟩ := List.exists_cons_of_ne_nil hrepl
          rw [hd, he] at hq2p
          rw [List.cons_append] at hq2p
          have hde := (List.cons_prefix_cons.mp hq2p).1
          have hdm : d ∈ repl := by rw [he, hde]; exact List.mem_cons_self _ _
          have hdq : d ∈ q := by
            rw [hq12, hd]
            exact List.mem_append.mpr (Or.inr (List.mem_cons_self _ _))
          exact hdisj d hdm hdq
  intro s
  exact main s.length s le_rfl

theorem not_infix_of_containsMarker_false {pat c : List Char} (hpat : pat ≠ [])
    (h : containsMarker pat c = false) : ¬ pat <:+: c := by
  intro hinf
  rw [(containsMarker_iff_occurs hpat).mpr hinf] at h
  cases h

theorem tsMarker_ne_nil : tsMarker ≠ [] := by decide

theorem rfMarker_ne_nil : rfMarker ≠ [] := by decide

/-- Marker substitution on one string value yields a marker-free string,
provided the value did not contain both markers and all file contents are
marker-free. -/
theorem processString_markerFree (fs : FsEnv)
    (hfile : ∀ p c, fs.file p = some c →
      containsMarker tsMarker c = false ∧ containsMarker rfMarker c = false)
    (s out : List Char)
    (hboth : ¬(containsMarker tsMarker s = true ∧ containsMarker rfMarker s = true))
    (h : processString fs s = .ok out) :
    ¬ tsMarker <:+: out ∧ ¬ rfMarker <:+: out := by
  unfold processString at h
  by_cases hts : containsMarker tsMarker s = true
  · rw [if_pos hts] at h
    have hout : out = replaceList tsMarker (natChars fs.now) s := by
      cases h; rfl
    subst hout
    have hdigits_ts : ∀ c ∈ natChars fs.now, c ∉ tsMarker :=
      fun c hc => decimalDigits_not_mem_tsMarker c (natChars_digits _ c hc)
    have hdigits_rf : ∀ c ∈ natChars fs.now, c ∉ rfMarker :=
      fun c hc => decimalDigits_not_mem_rfMarker c (natChars_digits _ c hc)
    constructor
    · exact replaceList_no_occurs tsMarker_ne_nil (natChars_ne_nil _) tsMarker_ne_nil
        hdigits_ts s (Or.inl rfl)
    · have hrf : containsMarker rfMarker s = false := by
        cases hcf : containsMarker rfMarker s with
        | true => exact absurd ⟨hts, hcf⟩ hboth
        | false => rfl
      exact replaceList_no_occurs tsMarker_ne_nil (natChars_ne_nil _) rfMarker_ne_nil
        hdigits_rf s (Or.inr (not_infix_of_containsMarker_false rfMarker_ne_nil hrf))
  · rw [if_neg hts] at h
    have hts' : containsMarker tsMarker s = false := by
      cases hcf : containsMarker tsMarker s with
      | true => exact absurd hcf hts
      | false => rfl
    by_cases hrf : containsMarker rfMarker s = true
    · rw [if_pos hrf] at h
      cases hfl : fs.file (replaceList rfMarker [] s) with
      | some c =>
        rw [hfl] at h
        have hout : out = c := by cases h; rfl
        subst hout
        obtain ⟨h1, h2⟩ := hfile _ _ hfl
        exact ⟨not_infix_of_containsMarker_false tsMarker_ne_nil h1,
          not_infix_of_containsMarker_false rfMarker_ne_nil h2⟩
      | none => rw [hfl] at h; cases h
    · rw [if_neg hrf] at h
      have hout : out = s := by cases h; rfl
      subst hout
      have hrf' : containsMarker rfMarker out = false := by
        cases hcf : containsMarker rfMarker out with
        | true => exact absurd hcf hrf
        | false => rfl
      exact ⟨not_infix_of_containsMarker_false tsMarker_ne_nil hts',
        not_infix_of_containsMarker_false rfMarker_ne_nil hrf'⟩

/-- Soundness of the recursive walk: every string leaf of the materialized
value is marker-free. -/
theorem processItem_markerFree (fs : FsEnv)
    (hfile : ∀ p c, fs.file p = some c →
      containsMarker tsMarker c = false ∧ containsMarker rfMarker c = false) :
    ∀ (v v' : ConfigValue), noBothMarkers v = true → processItem fs v = .ok v' →
      ∀ s, StrLeaf s v' → ¬ tsMarker <:+: s ∧ ¬ rfMarker <:+: s := by
  have main : ∀ (n : Nat) (v v' : ConfigValue), sizeOf v ≤ n →
      noBothMarkers v = true → processItem fs v = .ok v' →
      ∀ s, StrLeaf s v' → ¬ tsMarker <:+: s ∧ ¬ rfMarker <:+: s := by
    intro n
    induction n with
    | zero =>
      intro v v' hsz
      exfalso
      cases v <;> simp at hsz
    | succ n ih =>
      intro v v' hsz hboth hproc s hleaf
      cases v with
      | other =>
        have hv' : v' = .other := by
          unfold processItem at hproc
          cases hproc; rfl
        subst hv'
        cases hleaf
      | str s0 =>
        unfold processItem at hproc
        cases hps : processString fs s0 with
        | error e => rw [hps] at hproc; cases hproc
        | ok out =>
          rw [hps] at hproc
          have hv' : v' = .str out := by cases hproc; rfl
          subst hv'
          cases hleaf with
          | here =>
            refine processString_markerFree fs hfile s0 s ?_ hps
            unfold noBothMarkers at hboth
            intro ⟨h1, h2⟩
            rw [h1, h2] at hboth
            simp at hboth
      | dict kvs =>
        unfold processItem at hproc
        cases hpi : processItems fs kvs with
        | error e => rw [hpi] at hproc; cases hproc
        | ok kvs' =>
          rw [hpi] at hproc
          have hv' : v' = .dict kvs' := by cases hproc; rfl
          subst hv'
          have hkvs_sz : sizeOf kvs ≤ n := by
            simp at hsz
            omega
          have hkvs_both : noBothMarkersKVs kvs = true := by
            unfold noBothMarkers at hboth
            exact hboth
          clear hproc hsz hboth
          cases hleaf with
          | dict hmem hw =>
            rename_i k w
            revert hpi
            -- inner induction over the key/value list
            have inner : ∀ (l : List (String × ConfigValue)), sizeOf l ≤ n →
                noBothMarkersKVs l = true →
                ∀ l', processItems fs l = .ok l' →
                ∀ k w, (k, w) ∈ l' → ∀ s, StrLeaf s w →
                  ¬ tsMarker <:+: s ∧ ¬ rfMarker <:+: s := by
              intro l
              induction l with
              | nil =>
                intro _ _ l' hl' k0 w0 hmem0
                unfold processItems at hl'
                cases hl'
                cases hmem0
              | cons p rest ihl =>
                obtain ⟨kp, wp⟩ := p
                intro hlsz hlboth l' hl' k0 w0 hmem0 s0 hleaf0
                unfold processItems at hl'
                cases hw1 : processItem fs wp with
                | error e => rw [hw1] at hl'; cases hl'
                | ok wp' =>
                  rw [hw1] at hl'
                  cases hrest : processItems fs rest with
                  | error e => rw [hrest] at hl'; cases hl'
                  | ok rest' =>
                    rw [hrest] at hl'
                    have hl'' : l' = (kp, wp') :: rest' := by cases hl'; rfl
                    subst hl''
                    unfold noBothMarkersKVs at hlboth
                    rw [Bool.and_eq_true] at hlboth
                    rcases List.mem_cons.mp hmem0 with hhd | htl
                    · have hw0 : w0 = wp' := by cases hhd; rfl
                      subst hw0
                      have hwp_sz : sizeOf wp ≤ n := by
                        simp at hlsz
                        omega
                      exact ih wp w0 hwp_sz hlboth.1 hw1 s0 hleaf0
                    · have hrest_sz : sizeOf rest ≤ n := by
                        simp at hlsz
                        omega
                      exact ihl hrest_sz hlboth.2 rest' hrest k0 w0 htl s0 hleaf0
            intro hpi
            exact inner kvs hkvs_sz hkvs_both kvs' hpi k w hmem s hw
  intro v
  exact fun v' => main (sizeOf v) v v' (le_refl _)

theorem process_config_dict_eq (fs : FsEnv) (kvs : List (String × ConfigValue)) :
    process_config fs (.dict kvs) = (processItems fs kvs).map ConfigValue.dict := by
  unfold process_config
  rfl

theorem processItem_dict_eq (fs : FsEnv) (kvs : List (String × ConfigValue)) :
    processItem fs (.dict kvs) = (processItems fs kvs).map ConfigValue.dict := by
  unfold processItem
  rfl

/-! ## Supporting lemmas for the `<READFILE>` and `<TIMESTAMP>` branches -/

theorem replaceList_of_not_occurs {pat repl s : List Char} (hpat : pat ≠ [])
    (h : ¬ pat <:+: s) : replaceList pat repl s = s := by
  cases hsf : splitFirst pat s with
  | none => exact replaceList_none hpat hsf
  | some pp =>
    obtain ⟨pre, post⟩ := pp
    exact absurd ⟨pre, post, (splitFirst_eq_append hsf).symm⟩ h

theorem splitFirst_self_append {pat : List Char} (hpat : pat ≠ []) (r : List Char) :
    splitFirst pat (pat ++ r) = some ([], r) := by
  obtain ⟨c, cs, hc⟩ := List.exists_cons_of_ne_nil hpat
  subst hc
  rw [List.cons_append]
  have hd : dropPre? (c :: cs) (c :: (cs ++ r)) = some r := by
    have h := dropPre?_append (c :: cs) r
    rwa [List.cons_append] at h
  simp only [splitFirst, hd]

theorem splitFirst_cons_isSome (pat : List Char) (c : Char) (cs : List Char) :
    (splitFirst pat (c :: cs)).isSome =
      ((dropPre? pat (c :: cs)).isSome || (splitFirst pat cs).isSome) := by
  simp only [splitFirst]
  cases dropPre? pat (c :: cs) with
  | some r => rfl
  | none =>
    cases splitFirst pat cs with
    | none => rfl
    | some pp => cases pp; rfl

/-- Scanning for `<TIMESTAMP>` in `"<READFILE>" + path` never matches
inside the `<READFILE>` marker (the two markers disagree too early), so
the test reduces to the path alone. -/
theorem containsMarker_ts_rf_append (path : List Char) :
    containsMarker tsMarker (rfMarker ++ path) = containsMarker tsMarker path := by
  have e0 : rfMarker ++ path =
      '<' :: 'R' :: 'E' :: 'A' :: 'D' :: 'F' :: 'I' :: 'L' :: 'E' :: '>' :: path := rfl
  have d0 : dropPre? tsMarker
      ('<' :: 'R' :: 'E' :: 'A' :: 'D' :: 'F' :: 'I' :: 'L' :: 'E' :: '>' :: path) = none := rfl
  have d1 : dropPre? tsMarker
      ('R' :: 'E' :: 'A' :: 'D' :: 'F' :: 'I' :: 'L' :: 'E' :: '>' :: path) = none := rfl
  have d2 : dropPre? tsMarker
      ('E' :: 'A' :: 'D' :: 'F' :: 'I' :: 'L' :: 'E' :: '>' :: path) = none := rfl
  have d3 : dropPre? tsMarker
      ('A' :: 'D' :: 'F' :: 'I' :: 'L' :: 'E' :: '>' :: path) = none := rfl
  have d4 : dropPre? tsMarker ('D' :: 'F' :: 'I' :: 'L' :: 'E' :: '>' :: path) = none := rfl
  have d5 : dropPre? tsMarker ('F' :: 'I' :: 'L' :: 'E' :: '>' :: path) = none := rfl
  have d6 : dropPre? tsMarker ('I' :: 'L' :: 'E' :: '>' :: path) = none := rfl
  have d7 : dropPre? tsMarker ('L' :: 'E' :: '>' :: path) = none := rfl
  have d8 : dropPre? tsMarker ('E' :: '>' :: path) = none := rfl
  have d9 : dropPre? tsMarker ('>' :: path) = none := rfl
  unfold containsMarker
  rw [e0]
  simp only [splitFirst_cons_isSome, d0, d1, d2, d3, d4, d5, d6, d7, d8, d9,
    Option.isSome_none, Bool.false_or]

theorem replaceList_rf_append (path : List Char) (hrf : ¬ rfMarker <:+: path) :
    replaceList rfMarker [] (rfMarker ++ path) = path := by
  rw [replaceList_some rfMarker_ne_nil (splitFirst_self_append rfMarker_ne_nil path)]
  simp [replaceList_of_not_occurs rfMarker_ne_nil hrf]

/-- The `<READFILE>` branch of `process_config` on a value of the form
`"<READFILE>" + path`: the whole value becomes the contents of `path`,
or the run dies with FileNotFoundError. -/
theorem processString_readfile (fs : FsEnv) (path : List Char)
    (hts : ¬ tsMarker <:+: path) (hrf : ¬ rfMarker <:+: path) :
    processString fs (rfMarker ++ path) =
      match fs.file path with
      | some contents => .ok contents
      | none => .error (fileNotFoundError path) := by
  unfold processString
  have h1 : containsMarker tsMarker (rfMarker ++ path) = false := by
    rw [containsMarker_ts_rf_append]
    cases hcf : containsMarker tsMarker path with
    | true => exact absurd ((containsMarker_iff_occurs tsMarker_ne_nil).mp hcf) hts
    | false => rfl
  have h2 : containsMarker rfMarker (rfMarker ++ path) = true :=
    (containsMarker_iff_occurs rfMarker_ne_nil).mpr ⟨[], path, rfl⟩
  have h3 : replaceList rfMarker [] (rfMarker ++ path) = path :=
    replaceList_rf_append path hrf
  rw [h1, h2, h3]
  simp

theorem processString_timestamp (fs : FsEnv) (s : List Char)
    (h : containsMarker tsMarker s = true) :
    processString fs s = .ok (replaceList tsMarker (natChars fs.now) s) := by
  unfold processString
  rw [h]
  simp

/-! ## Supporting lemmas: the aggregation loop -/

theorem ratFloor_eq_floor (q : ℚ) : ratFloor q = ⌊q⌋ := Rat.floor_def.symm

theorem pyInt_eq_floor {q : ℚ} (h : 0 ≤ q) : pyInt q = ⌊q⌋ := by
  unfold pyInt
  rw [if_pos (Rat.num_nonneg.mpr h), ratFloor_eq_floor]

theorem passes_threshold_eq_floor {q : ℚ} (h : 0 ≤ q) :
    passes_threshold q = decide (4 ≤ ⌊q⌋) := by
  unfold passes_threshold
  rw [pyInt_eq_floor h]

theorem metricLoopAux_fst (name : String) :
    ∀ (l : List RatedRecord) (ind pc : Nat) (pr : ℚ),
      (metricLoopAux name l ind (pc, pr)).1 =
        pc + (l.filter (fun r => passes_threshold (r.rating name))).length := by
  intro l
  induction l with
  | nil => intro ind pc pr; simp [metricLoopAux]
  | cons r rest ih =>
    intro ind pc pr
    simp only [metricLoopAux]
    by_cases hp : passes_threshold (r.rating name)
    · simp only [hp, if_true, ih, List.filter_cons, List.length_cons]
      omega
    · simp only [hp, if_false, ih, List.filter_cons]
      simp [hp]

theorem metricLoopAux_snd (name : String) :
    ∀ (l : List RatedRecord), l ≠ [] → ∀ (ind pc : Nat) (pr : ℚ),
      (metricLoopAux name l ind (pc, pr)).2 =
        round2 (((pc : ℚ) +
            ((l.filter (fun r => passes_threshold (r.rating name))).length : ℚ)) /
          ((ind : ℚ) + (l.length : ℚ))) := by
  intro l
  induction l with
  | nil => intro h; exact absurd rfl h
  | cons r rest ih =>
    intro _ ind pc pr
    simp only [metricLoopAux]
    by_cases hrest : rest = []
    · subst hrest
      by_cases hp : passes_threshold (r.rating name) <;>
        simp only [hp, if_true, if_false, metricLoopAux, List.filter_cons] <;>
        congr 1 <;>
        simp [hp] <;> push_cast <;> ring
    · rw [ih hrest]
      by_cases hp : passes_threshold (r.rating name) <;>
        simp only [hp, if_true, if_false, List.filter_cons] <;>
        congr 1 <;>
        simp [hp] <;> push_cast <;> ring

theorem metricLoop_spec (name : String) (records : List RatedRecord)
    (h : records ≠ []) :
    metricLoop name records =
      ((records.filter (fun r => passes_threshold (r.rating name))).length,
       round2 (((records.filter (fun r => passes_threshold (r.rating name))).length : ℚ) /
         (records.length : ℚ))) := by
  unfold metricLoop
  refine Prod.ext ?_ ?_
  · rw [metricLoopAux_fst]
    simp
  · rw [metricLoopAux_snd name records h]
    norm_num

/-! ## Supporting lemmas: orchestrator and target invoker -/

theorem run_evaluation_probe_error (env : EvalEnv) (nq : Option Int) (e : String)
    (h : send_question_to_target probeQuestion env.targetResponse true = .error e) :
    run_evaluation env nq = ([.readDataset, .probe probeQuestion], .ok false) := by
  unfold run_evaluation
  rw [h]

theorem run_evaluation_no_writeConfig (env : EvalEnv) (nq : Option Int) :
    Event.writeConfig ∉ (run_evaluation env nq).1 := by
  unfold run_evaluation
  dsimp only
  split
  · simp
  · split <;> simp

theorem run_evaluate_from_config_eq (fs : FsEnv) (config : ConfigValue)
    (env : EvalEnv) (nq : Option Int) (c : ConfigValue)
    (hc : process_config fs config = .ok c) :
    run_evaluate_from_config fs config env nq =
      match run_evaluation env nq with
      | (events, .error e) => (events, .error e)
      | (events, .ok true) => (events ++ [.writeConfig], .ok ())
      | (events, .ok false) => (events, .ok ()) := by
  unfold run_evaluate_from_config
  rw [hc]

theorem asStrings_map_str : ∀ ss : List String, asStrings (ss.map Json.str) = some ss := by
  intro ss
  induction ss with
  | nil => rfl
  | cons s rest ih => simp [List.map_cons, asStrings, ih]

theorem extract_mkTargetJson (A : String) (ss : List String) :
    extractAnswerContext (mkTargetJson A ss) =
      some (Json.str A, String.intercalate "\n\n" ss) := by
  have h1 : extractAnswerContext (mkTargetJson A ss) =
      Option.bind (pyJoin "\n\n" (Json.arr (ss.map Json.str)))
        (fun context => some (Json.str A, context)) := rfl
  rw [h1]
  have h2 : pyJoin "\n\n" (Json.arr (ss.map Json.str)) =
      Option.map (String.intercalate "\n\n") (asStrings (ss.map Json.str)) := rfl
  rw [h2, asStrings_map_str]
  rfl

theorem send_mkTargetJson (Q A : String) (ss : List String) (b : Bool) :
    send_question_to_target Q (.ok (mkTargetJson A ss)) b =
      .ok ⟨Q, .str A, String.intercalate "\n\n" ss⟩ := by
  unfold send_question_to_target
  dsimp only
  rw [extract_mkTargetJson]

/-! ## Concrete inputs used by the witnesses -/

/-- An environment whose target is down: the probe POST raises. -/
def envProbeFail : EvalEnv :=
  ⟨[⟨"q1", "t1"⟩], .error "connection refused", [], fun _ => 0⟩

/-- A healthy target whose grading artifact came back empty. -/
def envProbeOkEmpty : EvalEnv :=
  ⟨[], .ok (mkTargetJson "hello" ["a"]), [], fun _ => 0⟩

/-- A file system with no files and clock 0. -/
def fsTrivial : FsEnv := ⟨0, fun _ => none⟩

/-- A file system where every file reads as `"x"`, clock 0. -/
def fsAllX : FsEnv := ⟨0, fun _ => some ['x']⟩

/-- A file system where every file reads as `"x"`, clock 7. -/
def fsClock7 : FsEnv := ⟨7, fun _ => some ['x']⟩

/-- Rated records carrying coherence ratings 5, 3, 4. -/
def records534 : List RatedRecord :=
  [⟨"a", 5, 5, 5⟩, ⟨"b", 3, 3, 3⟩, ⟨"c", 4, 4, 4⟩]

/-- The malformed mock response from the spec. -/
def fooJson : Json := .obj [("foo", .str "bar")]

/-! ## The claims -/

/-- C1 (counterexample): the spec says the probe question is sent before
the dataset file is loaded, so that a failing probe means the dataset is
never read.  In the code `load_jsonl` runs first: with a probe that raises
`"connection refused"`, the trace still starts with the dataset read,
before the probe. -/
theorem claim_C1_counterexample :
    send_question_to_target probeQuestion envProbeFail.targetResponse true =
      .error "connection refused" ∧
    (run_evaluation envProbeFail none).1 =
      [Event.readDataset, Event.probe probeQuestion] ∧
    Event.readDataset ∈ (run_evaluation envProbeFail none).1 := by
  refine ⟨rfl, rfl, ?_⟩
  have h : (run_evaluation envProbeFail none).1 =
      [Event.readDataset, Event.probe probeQuestion] := rfl
  rw [h]
  exact List.mem_cons_self _ _

/-- C1 (amended): `run_evaluation` loads the dataset file first and only
then sends the fixed probe question; if the probe raises, it returns false
and nothing further runs (no grading, no aggregation, no writes) — but the
dataset file has already been read. -/
theorem claim_C1_amended : ∀ (env : EvalEnv) (nq : Option Int) (e : String),
    send_question_to_target probeQuestion env.targetResponse true = .error e →
    run_evaluation env nq =
      ([Event.readDataset, Event.probe probeQuestion], .ok false) :=
  fun env nq e h => run_evaluation_probe_error env nq e h

theorem claim_C1_amended_witness :
    run_evaluation envProbeFail none =
      ([Event.readDataset, Event.probe probeQuestion], Except.ok false) :=
  claim_C1_amended envProbeFail none "connection refused" rfl

/-- C2: a raising probe makes `run_evaluation` return false rather than
raise, and `run_evaluate_from_config` writes `config.json` exactly when
`run_evaluation` returned true. -/
theorem claim_C2 : ∀ (fs : FsEnv) (config : ConfigValue) (env : EvalEnv)
    (nq : Option Int),
    (∀ e, send_question_to_target probeQuestion env.targetResponse true = .error e →
      (run_evaluation env nq).2 = .ok false) ∧
    (∀ c, process_config fs config = .ok c →
      (Event.writeConfig ∈ (run_evaluate_from_config fs config env nq).1 ↔
        (run_evaluation env nq).2 = .ok true)) := by
  intro fs config env nq
  constructor
  · intro e he
    rw [run_evaluation_probe_error env nq e he]
  · intro c hc
    rw [run_evaluate_from_config_eq fs config env nq c hc]
    have hnw := run_evaluation_no_writeConfig env nq
    rcases hre : run_evaluation env nq with ⟨events, result⟩
    rw [hre] at hnw
    cases result with
    | error e =>
      dsimp only
      simp [hnw]
    | ok b =>
      cases b with
      | true =>
        dsimp only
        simp
      | false =>
        dsimp only
        simp [hnw]

theorem claim_C2_witness :
    (run_evaluation envProbeFail none).2 = Except.ok false ∧
    Event.writeConfig ∉
      (run_evaluate_from_config fsTrivial .other envProbeFail none).1 := by
  have h := claim_C2 fsTrivial .other envProbeFail none
  have h1 := h.1 "connection refused" rfl
  refine ⟨h1, fun hmem => ?_⟩
  have h2 := (h.2 .other rfl).mp hmem
  rw [h1] at h2
  simp at h2

/-- C3: when the target's JSON body has the expected shape with answer `A`
and context snippets `ss`, the invoker returns the question unchanged, the
answer, and the snippets joined with blank lines; in particular the mock
response with content "hello" and snippets ["a", "b"] yields answer
"hello" and context "a\n\nb". -/
theorem claim_C3 : ∀ (Q A : String) (ss : List String) (b : Bool),
    send_question_to_target Q (.ok (mkTargetJson A ss)) b =
        .ok ⟨Q, .str A, String.intercalate "\n\n" ss⟩ ∧
    send_question_to_target Q (.ok (mkTargetJson "hello" ["a", "b"])) b =
        .ok ⟨Q, .str "hello", "a\n\nb"⟩ := by
  intro Q A ss b
  refine ⟨send_mkTargetJson Q A ss b, ?_⟩
  rw [send_mkTargetJson Q "hello" ["a", "b"] b]
  rfl

/-- C4: on any response that does not parse into the expected shape, the
invoker raises the schema error when `raise_error` is true and otherwise
returns a TargetResponse with the stringified error copied into both
`answer` and `context` and the question preserved; likewise for a failing
POST or malformed JSON body (the `.error e` case). -/
theorem claim_C4 : ∀ (Q : String) (j : Json),
    extractAnswerContext j = none →
    (send_question_to_target Q (.ok j) true = .error (schemaErrorMessage j) ∧
     send_question_to_target Q (.ok j) false =
       .ok ⟨Q, .str (schemaErrorMessage j), schemaErrorMessage j⟩) ∧
    (∀ e : String,
      send_question_to_target Q (.error e) true = .error e ∧
      send_question_to_target Q (.error e) false = .ok ⟨Q, .str e, e⟩) := by
  intro Q j h
  refine ⟨⟨?_, ?_⟩, fun e => ⟨rfl, rfl⟩⟩
  · unfold send_question_to_target
    dsimp only
    rw [h]
    rfl
  · unfold send_question_to_target
    dsimp only
    rw [h]
    rfl

theorem claim_C4_witness :
    extractAnswerContext fooJson = none ∧
    send_question_to_target "q" (.ok fooJson) false =
      .ok ⟨"q", .str (schemaErrorMessage fooJson), schemaErrorMessage fooJson⟩ :=
  ⟨rfl, (claim_C4 "q" fooJson rfl).1.2⟩

/-- C5: for every configuration mapping, if no value contains both markers
and all file contents substituted for `<READFILE>` values are marker-free,
then after `process_config` succeeds no string value anywhere in the
result contains `<TIMESTAMP>` or `<READFILE>` as a substring. -/
theorem claim_C5 : ∀ (fs : FsEnv) (kvs : List (String × ConfigValue))
    (v' : ConfigValue),
    (∀ p c, fs.file p = some c →
      containsMarker tsMarker c = false ∧ containsMarker rfMarker c = false) →
    noBothMarkers (.dict kvs) = true →
    process_config fs (.dict kvs) = .ok v' →
    ∀ s, StrLeaf s v' → ¬ tsMarker <:+: s ∧ ¬ rfMarker <:+: s := by
  intro fs kvs v' hfile hboth hproc
  apply processItem_markerFree fs hfile (.dict kvs) v' hboth
  rw [processItem_dict_eq, ← process_config_dict_eq]
  exact hproc

theorem claim_C5_witness :
    ¬ tsMarker <:+: ['0', 'f'] ∧ ¬ rfMarker <:+: ['0', 'f'] := by
  refine claim_C5 fsAllX [("k", .str (tsMarker ++ ['f']))]
    (.dict [("k", .str ['0', 'f'])]) ?_ (by decide) rfl ['0', 'f'] ?_
  · intro p c hc
    have hcx : c = ['x'] := by
      have : some ['x'] = some c := hc
      cases this
      rfl
    subst hcx
    exact ⟨by decide, by decide⟩
  · exact StrLeaf.dict (List.mem_singleton.mpr rfl) (StrLeaf.here _)

/-- C6: a string value of the form `<READFILE>` followed by a path is
replaced by exactly the contents of that path, and a missing file is an
uncaught file-not-found error. -/
theorem claim_C6 : ∀ (fs : FsEnv) (path : List Char),
    ¬ tsMarker <:+: path → ¬ rfMarker <:+: path →
    (∀ c, fs.file path = some c →
      processItem fs (.str (rfMarker ++ path)) = .ok (.str c)) ∧
    (fs.file path = none →
      processItem fs (.str (rfMarker ++ path)) =
        .error (fileNotFoundError path)) := by
  intro fs path hts hrf
  have hps := processString_readfile fs path hts hrf
  have hunf : processItem fs (.str (rfMarker ++ path)) =
      (processString fs (rfMarker ++ path)).map ConfigValue.str := rfl
  constructor
  · intro c hc
    rw [hunf, hps, hc]
    rfl
  · intro hc
    rw [hunf, hps, hc]
    rfl

theorem claim_C6_witness :
    fsAllX.file ['a'] = some ['x'] ∧
    processItem fsAllX (.str (rfMarker ++ ['a'])) = .ok (.str ['x']) ∧
    fsTrivial.file ['a'] = none ∧
    processItem fsTrivial (.str (rfMarker ++ ['a'])) =
      .error (fileNotFoundError ['a']) := by
  have h1 := claim_C6 fsAllX ['a'] (by decide) (by decide)
  have h2 := claim_C6 fsTrivial ['a'] (by decide) (by decide)
  exact ⟨rfl, h1.1 ['x'] rfl, rfl, h2.2 rfl⟩

/-- C7: a string value containing `<TIMESTAMP>` gets only the timestamp
substitution — every occurrence replaced by the decimal clock value, the
result independent of the file system (no file is read), and no
`<TIMESTAMP>` occurrence remains. -/
theorem claim_C7 : ∀ (fs : FsEnv) (s : List Char),
    containsMarker tsMarker s = true →
    processString fs s = .ok (replaceList tsMarker (natChars fs.now) s) ∧
    (∀ fs2 : FsEnv, fs2.now = fs.now → processString fs2 s = processString fs s) ∧
    ¬ tsMarker <:+: replaceList tsMarker (natChars fs.now) s := by
  intro fs s h
  refine ⟨processString_timestamp fs s h, ?_, ?_⟩
  · intro fs2 hnow
    rw [processString_timestamp fs2 s h, processString_timestamp fs s h, hnow]
  · exact replaceList_no_occurs tsMarker_ne_nil (natChars_ne_nil _) tsMarker_ne_nil
      (fun c hc => decimalDigits_not_mem_tsMarker c (natChars_digits _ c hc))
      s (Or.inl rfl)

theorem claim_C7_witness :
    containsMarker tsMarker (tsMarker ++ rfMarker) = true ∧
    containsMarker rfMarker (tsMarker ++ rfMarker) = true ∧
    processString fsClock7 (tsMarker ++ rfMarker) = .ok ('7' :: rfMarker) := by
  refine ⟨by decide, by decide, ?_⟩
  have h := (claim_C7 fsClock7 (tsMarker ++ rfMarker) (by decide)).1
  rw [h]
  rfl

/-- C8: for a non-empty rated set and nonnegative ratings, the final
`pass_count` for a metric is the number of records with `⌊rating⌋ ≥ 4`
and the final `pass_rate` is that count over the record count, rounded to
two decimals. -/
theorem claim_C8 : ∀ (name : String) (records : List RatedRecord),
    records ≠ [] →
    (∀ r ∈ records, 0 ≤ r.rating name) →
    (metricLoop name records).1 =
        (records.filter (fun r => decide (4 ≤ ⌊r.rating name⌋))).length ∧
    (metricLoop name records).2 =
        round2 (((records.filter (fun r => decide (4 ≤ ⌊r.rating name⌋))).length : ℚ) /
          (records.length : ℚ)) := by
  intro name records hne hnn
  have hfilter : records.filter (fun r => passes_threshold (r.rating name)) =
      records.filter (fun r => decide (4 ≤ ⌊r.rating name⌋)) := by
    apply List.filter_congr
    intro r hr
    rw [passes_threshold_eq_floor (hnn r hr)]
  have h := metricLoop_spec name records hne
  rw [hfilter] at h
  rw [h]
  exact ⟨rfl, rfl⟩

theorem claim_C8_witness :
    records534 ≠ [] ∧
    (metricLoop "gpt_coherence" records534).1 = 2 ∧
    (metricLoop "gpt_coherence" records534).2 = 67/100 := by
  have h := claim_C8 "gpt_coherence" records534 (by simp [records534])
    (by with_unfolding_all decide)
  refine ⟨by simp [records534], ?_, ?_⟩
  · rw [h.1]
    with_unfolding_all decide
  · rw [h.2]
    with_unfolding_all decide

/-- C9: metric aggregation on an empty rated set always fails with the
division-by-zero error, and a run whose probe succeeded but whose grading
artifact is empty ends with that uncaught error. -/
theorem claim_C9 :
    (∀ m : String → ℚ, computeMetrics m [] = none) ∧
    ∀ (env : EvalEnv) (nq : Option Int) (r : TargetResponse),
      send_question_to_target probeQuestion env.targetResponse true = .ok r →
      env.gradedRecords = [] →
      (run_evaluation env nq).2 = .error zeroDivisionError := by
  constructor
  · intro m
    rfl
  · intro env nq r hp hempty
    unfold run_evaluation
    rw [hp, hempty]
    rfl

theorem claim_C9_witness :
    (run_evaluation envProbeOkEmpty none).2 = Except.error zeroDivisionError :=
  claim_C9.2 envProbeOkEmpty none ⟨probeQuestion, .str "hello", "a"⟩ rfl rfl

/-- C10: a question cap of 0 is falsy, so no truncation happens and the
whole dataset is used, exactly as with no cap at all; truncation to the
first N records happens only for a positive cap N. -/
theorem claim_C10 : ∀ (ds : List TestRecord),
    applyQuestionCap (some 0) ds = ds ∧
    applyQuestionCap none ds = ds ∧
    ∀ n : Int, 0 < n → applyQuestionCap (some n) ds = ds.take n.toNat := by
  intro ds
  refine ⟨?_, rfl, ?_⟩
  · unfold applyQuestionCap pyTruthy
    simp
  · intro n hn
    unfold applyQuestionCap pyTruthy pySliceTo
    have h1 : (n != 0) = true := by
      simp [hn.ne.symm]
    rw [if_pos h1]
    dsimp only [Option.getD]
    rw [if_pos hn.le]

theorem claim_C10_witness :
    applyQuestionCap (some 0) [⟨"q1", "t1"⟩, ⟨"q2", "t2"⟩] =
      [⟨"q1", "t1"⟩, ⟨"q2", "t2"⟩] ∧
    applyQuestionCap (some 1) [⟨"q1", "t1"⟩, ⟨"q2", "t2"⟩] = [⟨"q1", "t1"⟩] := by
  refine ⟨(claim_C10 _).1, ?_⟩
  rw [(claim_C10 [⟨"q1", "t1"⟩, ⟨"q2", "t2"⟩]).2.2 1 (by decide)]
  rfl

end Evaluate
